import Mathlib

/-!
Shallow embedding of the dbt metadata tooling of this repository:

* `check_schema_changes.py` — `SchemaChangeChecker`: loads two revisions of a
  schema YAML file, indexes models by name, and records breaking
  (model/column removals) and non-breaking (column additions) changes in two
  lists.
* `scripts/validate_metadata.py` — `MetadataValidator`: loads every schema
  YAML file, and runs four validation passes that append findings to shared
  `errors` and `warnings` lists; the entry point exits nonzero exactly when
  `errors` is non-empty after a completed pass.

Python strings are Lean `String`; operations that the scripts perform on
strings (`.strip()`, `.lower()`, substring `in`) are re-implemented on the
underlying character lists so that every definition evaluates inside the
kernel.  Python `dict` built by comprehension or repeated assignment is an
association list built by prepending, looked up by first match: later
insertions win, exactly like `dict` overwriting.  Python `set` has no
specified iteration order; loops `for x in someSet` are therefore
parameterised by an enumeration `order : List String` together with the
predicate `validOrder` stating that `order` enumerates the set without
repetition.  Code that can raise is embedded in `Except Unit`.
-/

instance {ε α : Type} [DecidableEq ε] [DecidableEq α] : DecidableEq (Except ε α) :=
  fun x y =>
  match x, y with
  | .ok a, .ok b =>
    if h : a = b then isTrue (h ▸ rfl) else isFalse (fun hh => h (Except.ok.inj hh))
  | .error e, .error f =>
    if h : e = f then isTrue (h ▸ rfl) else isFalse (fun hh => h (Except.error.inj hh))
  | .ok _, .error _ => isFalse (fun hh => Except.noConfusion hh)
  | .error _, .ok _ => isFalse (fun hh => Except.noConfusion hh)

/-- Python str.lower of a string, as a character list (`.lower()`). -/
def lowerStr (s : String) : List Char := s.data.map Char.toLower

/-- Boolean prefix test on character lists. -/
def isPre : List Char → List Char → Bool
  | [], _ => true
  | _ :: _, [] => false
  | a :: as, b :: bs => a == b && isPre as bs

/-- Boolean substring test on character lists; `hasSub n h` is the Python
test `n in h` for strings. -/
def hasSub (needle : List Char) : List Char → Bool
  | [] => isPre needle []
  | b :: bs => isPre needle (b :: bs) || hasSub needle bs

/-- Python str.strip: drop leading and trailing whitespace. -/
def stripStr (s : String) : List Char :=
  ((s.data.dropWhile Char.isWhitespace).reverse.dropWhile Char.isWhitespace).reverse

/-- Association-list lookup, first match wins (models Python dict lookup on
a list built by prepending, so the most recent insertion is found). -/
def dictGet {κ α : Type} [BEq κ] (d : List (κ × α)) (k : κ) : Option α :=
  (d.find? (fun p => p.1 == k)).map (fun p => p.2)

/-- One entry of a column `tests:` list: a bare test name string, a mapping
from test names to parameters (only the keys are read, in order), or any
other YAML value, which both `isinstance` checks in `validate_tests`
reject and which is therefore skipped. -/
inductive TestSpec
  | str (s : String)
  | map (keys : List String)
  | other
deriving DecidableEq

/-! ## Schema change checker (`check_schema_changes.py`)

Documents fed to the checker are the parsed YAML dictionaries; the checker
reads `m[Jname]` for each model and `c[Jname]` for each column, so the model
and column names are total here (the claims quantify over the documents of
the data model in the specification, where every entry is named). -/

/-- One column entry as read by the checker: only `name` is consulted, the
other attributes ride along untouched. -/
structure DColumn where
  name : String
  description : String
  tests : List TestSpec
deriving DecidableEq

/-- One model entry as read by the checker: only `name` and the column
names are consulted. -/
structure DModel where
  name : String
  description : String
  tags : List String
  columns : List DColumn
deriving DecidableEq

/-- A parsed schema document for the checker: `none` is a falsy parse
result (empty dict, which the `if not main_schema` guard skips), `some ms`
a truthy dict whose `models` key yields the list `ms`. -/
abbrev DDoc := Option (List DModel)

/-- Parse outcome of one YAML source for the checker. -/
inductive CRaw
  | malformed
  | empty
  | doc (d : DDoc)
deriving DecidableEq

/-- The checker `load_schema_file` (and `get_schema_from_git`): any read or
parse failure, and an empty file, yield the empty dict; the failure is only
printed, never recorded in the change lists. -/
def loadSchemaFileC : CRaw → DDoc
  | .malformed => none
  | .empty => none
  | .doc d => d

/-- The column-name list of a model: the comprehension over
`model.get(Jcolumns, [])`. -/
def columnNames (m : DModel) : List String := m.columns.map (fun c => c.name)

/-- The model dictionary built by the comprehension over
`schema.get(Jmodels, [])`, keyed by model name; built by prepending so
that a later duplicate name overwrites an earlier one on lookup. -/
def mkDict (ms : List DModel) : List (String × DModel) :=
  ms.foldl (fun d m => (m.name, m) :: d) []

/-- One recorded schema change.  Each constructor corresponds to one
append site in the checker; the column payload is the Python set the
message joins over. -/
inductive Change
  | modelRemoved (model : String)
  | columnsRemoved (model : String) (cols : Finset String)
  | columnsAdded (model : String) (cols : Finset String)
deriving DecidableEq

/-- The model a change is reported for. -/
def changeModel : Change → String
  | .modelRemoved m => m
  | .columnsRemoved m _ => m
  | .columnsAdded m _ => m

/-- `check_column_removals`: the set difference of the old and new column
names; a non-empty difference appends one breaking finding. -/
def checkColumnRemovals (modelName : String) (old new : List String) : Option Change :=
  let removed := old.toFinset \ new.toFinset
  if removed.Nonempty then some (.columnsRemoved modelName removed) else none

/-- `check_column_additions`: the set difference of the new and old column
names; a non-empty difference appends one non-breaking finding. -/
def checkColumnAdditions (modelName : String) (old new : List String) : Option Change :=
  let added := new.toFinset \ old.toFinset
  if added.Nonempty then some (.columnsAdded modelName added) else none

/-- One iteration of the model loop in `check_schema_changes`, on the state
`(breaking_changes, non_breaking_changes)`: a name missing from the main
dict is only printed as a new model; a name missing from the current dict
appends a breaking removal; a shared name appends the column removal
finding (if any) and then the column addition finding (if any). -/
def diffStep (mainD curD : List (String × DModel)) (st : List Change × List Change)
    (k : String) : List Change × List Change :=
  match dictGet mainD k with
  | none => st
  | some mm =>
    match dictGet curD k with
    | none => (st.1 ++ [.modelRemoved k], st.2)
    | some cm =>
      let st1 :=
        match checkColumnRemovals k (columnNames mm) (columnNames cm) with
        | some c => (st.1 ++ [c], st.2)
        | none => st
      match checkColumnAdditions k (columnNames mm) (columnNames cm) with
      | some c => (st1.1, st1.2 ++ [c])
      | none => st1

/-- The comparison of one schema file in `check_schema_changes`: if the
main-branch document is falsy the file is skipped with no findings;
otherwise the model loop runs over the union of the two key sets in the
enumeration `order`. -/
def diffFile (mainDoc curDoc : DDoc) (order : List String) :
    List Change × List Change :=
  match mainDoc with
  | none => ([], [])
  | some mainMs =>
      order.foldl (diffStep (mkDict mainMs) (mkDict (curDoc.getD []))) ([], [])

/-- An enumeration of the Python set
`set(current_models.keys()) | set(main_models.keys())`: each key exactly
once, in some order.  Python fixes no particular order (string hashing is
seeded per process), so any such enumeration is a possible run. -/
def validOrder (mainDoc curDoc : DDoc) (order : List String) : Prop :=
  order.Nodup ∧
    order.toFinset =
      ((mkDict (curDoc.getD [])).map (fun p => p.1)).toFinset ∪
        ((mkDict (mainDoc.getD [])).map (fun p => p.1)).toFinset

instance (mainDoc curDoc : DDoc) (order : List String) :
    Decidable (validOrder mainDoc curDoc order) := by
  unfold validOrder; infer_instance

/-! ## Metadata validator (`scripts/validate_metadata.py`)

The validator consumes raw YAML, so entries may lack fields or carry null
values.  A field read with `.get(key)` is `Option String` (`none` is the
Python `None` produced both by an absent key and by an explicit null); the
description fields are read with `.get(key, JJ)` and then `.strip()`, so
there absence (`none`) defaults to the empty string while a present null
(`some none`) makes `.strip()` raise. -/

/-- One column entry of the validator documents. -/
structure VColumn where
  name : Option String
  description : Option (Option String)
  tests : List TestSpec
deriving DecidableEq

/-- One model entry of the validator documents. -/
structure VModel where
  name : Option String
  description : Option (Option String)
  tags : List String
  columns : List VColumn
deriving DecidableEq

/-- Parse outcome of one schema file for the validator: a raised read or
parse error, a file whose `yaml.safe_load` is falsy, or a parsed document
with its `models` list (an absent `models` key behaves as the empty
list). -/
inductive RawFile
  | malformed
  | empty
  | doc (models : List VModel)
deriving DecidableEq

/-- One validator finding.  Each constructor corresponds to one append
site in `validate_metadata.py`, carrying the names interpolated into the
message. -/
inductive VFinding
  | readError
  | noSchemaDoc (model : String)
  | emptyModelDescription (model : String)
  | shortModelDescription (model : String)
  | noColumnsDocumented (model : Option String)
  | emptyColumnDescription (model : Option String) (col : Option String)
  | shortColumnDescription (model : Option String) (col : Option String)
  | missingUniqueTest (model : Option String) (col : String)
  | missingNotNullTest (model : Option String) (col : String)
  | noTags (model : Option String)
deriving DecidableEq

/-- The shared mutable state of the validator: `(self.errors, self.warnings)`. -/
abbrev VState := List VFinding × List VFinding

/-- The validator `load_schema_file`: a parse or read exception appends a
reading error to `self.errors` and yields the empty dict; a falsy load
yields the empty dict silently. -/
def loadSchemaFile (f : RawFile) (errors : List VFinding) :
    List VModel × List VFinding :=
  match f with
  | .malformed => ([], errors ++ [.readError])
  | .empty => ([], errors)
  | .doc ms => (ms, errors)

/-- Python `entry.get(Jdescription, JJ).strip()`: an absent description
defaults to the empty string, a present null raises (AttributeError on
`None.strip()`), a string is stripped. -/
def stripDesc (d : Option (Option String)) : Except Unit (List Char) :=
  match d with
  | none => .ok (stripStr "")
  | some none => .error ()
  | some (some s) => .ok (stripStr s)

/-- One file of the index-building loop of `validate_model_documentation`:
load the file (recording read errors), then insert every model into
`documented_models` keyed by name, storing the stripped description.
Insertion prepends, so a later document overwrites an earlier one. -/
def vmdFileStep (f : RawFile)
    (acc : List (Option String × List Char) × List VFinding) :
    Except Unit (List (Option String × List Char) × List VFinding) :=
  let (ms, errs) := loadSchemaFile f acc.2
  ms.foldl
    (fun a m => a.bind (fun p =>
      (stripDesc m.description).map (fun d => ((m.name, d) :: p.1, p.2))))
    (.ok (acc.1, errs))

/-- The `documented_models` index of `validate_model_documentation`,
together with the read errors appended while loading. -/
def buildIndex (files : List RawFile) (errors : List VFinding) :
    Except Unit (List (Option String × List Char) × List VFinding) :=
  files.foldl (fun acc f => acc.bind (vmdFileStep f)) (.ok ([], errors))

/-- The checking loop of `validate_model_documentation` over the model
names discovered from SQL files (`impl` enumerates that Python set): a name
absent from the index is an error; an empty stripped description is an
error; a description under 10 characters is a warning. -/
def vmdChecks (idx : List (Option String × List Char)) (impl : List String)
    (st : VState) : VState :=
  impl.foldl
    (fun s n =>
      match dictGet idx (some n) with
      | none => (s.1 ++ [.noSchemaDoc n], s.2)
      | some d =>
        if d.length = 0 then (s.1 ++ [.emptyModelDescription n], s.2)
        else if d.length < 10 then (s.1, s.2 ++ [.shortModelDescription n])
        else s)
    st

/-- `validate_model_documentation`. -/
def validateModelDocumentation (files : List RawFile) (impl : List String)
    (st : VState) : Except Unit VState :=
  (buildIndex files st.1).map (fun p => vmdChecks p.1 impl (p.2, st.2))

/-- One column of `validate_column_documentation`: strip the description
(raising on a present null); empty is an error, under 5 characters a
warning. -/
def vcdColumn (mname : Option String) (c : VColumn) (st : VState) :
    Except Unit VState :=
  (stripDesc c.description).map (fun d =>
    if d.length = 0 then (st.1 ++ [.emptyColumnDescription mname c.name], st.2)
    else if d.length < 5 then (st.1, st.2 ++ [.shortColumnDescription mname c.name])
    else st)

/-- One model of `validate_column_documentation`: a model with no columns
gets a warning and is skipped, otherwise every column is checked. -/
def vcdModel (m : VModel) (st : VState) : Except Unit VState :=
  if m.columns = [] then .ok (st.1, st.2 ++ [.noColumnsDocumented m.name])
  else m.columns.foldl (fun a c => a.bind (vcdColumn m.name c)) (.ok st)

/-- One file of `validate_column_documentation`. -/
def vcdFileStep (f : RawFile) (st : VState) : Except Unit VState :=
  let (ms, errs) := loadSchemaFile f st.1
  ms.foldl (fun a m => a.bind (vcdModel m)) (.ok (errs, st.2))

/-- `validate_column_documentation`. -/
def validateColumnDocumentation (files : List RawFile) (st : VState) :
    Except Unit VState :=
  files.foldl (fun acc f => acc.bind (vcdFileStep f)) (.ok st)

/-- The `test_types` list of `validate_tests`: bare string tests appended
directly, mapping tests contribute their keys, anything else is skipped. -/
def testTypes (tests : List TestSpec) : List String :=
  tests.foldl
    (fun acc t =>
      match t with
      | .str s => acc ++ [s]
      | .map ks => acc ++ ks
      | .other => acc)
    []

/-- One column of `validate_tests`: `col_name.lower()` raises when the
column has no (string) name; a name containing the substring id in any
case must carry a unique test and a not-null test, one warning per
missing kind, unique first. -/
def vtColumn (mname : Option String) (c : VColumn) (st : VState) :
    Except Unit VState :=
  match c.name with
  | none => .error ()
  | some cn =>
    if hasSub "id".data (lowerStr cn) then
      let tt := testTypes c.tests
      let st1 := if "unique" ∈ tt then st
        else (st.1, st.2 ++ [.missingUniqueTest mname cn])
      .ok (if "not_null" ∈ tt then st1
        else (st1.1, st1.2 ++ [.missingNotNullTest mname cn]))
    else .ok st

/-- One file of `validate_tests`. -/
def vtFileStep (f : RawFile) (st : VState) : Except Unit VState :=
  let (ms, errs) := loadSchemaFile f st.1
  ms.foldl
    (fun a m => a.bind (fun s =>
      m.columns.foldl (fun b c => b.bind (vtColumn m.name c)) (.ok s)))
    (.ok (errs, st.2))

/-- `validate_tests`. -/
def validateTests (files : List RawFile) (st : VState) : Except Unit VState :=
  files.foldl (fun acc f => acc.bind (vtFileStep f)) (.ok st)

/-- One file of `validate_tags`: a model with an empty tags list gets a
warning. -/
def vtagsFileStep (f : RawFile) (st : VState) : Except Unit VState :=
  let (ms, errs) := loadSchemaFile f st.1
  .ok (ms.foldl
    (fun s m => if m.tags = [] then (s.1, s.2 ++ [.noTags m.name]) else s)
    (errs, st.2))

/-- `validate_tags`. -/
def validateTags (files : List RawFile) (st : VState) : Except Unit VState :=
  files.foldl (fun acc f => acc.bind (vtagsFileStep f)) (.ok st)

/-- `run_all_validations` up to the report: the four passes in order,
threading the shared error and warning lists; an uncaught exception in any
pass aborts the run. -/
def runAllValidations (files : List RawFile) (impl : List String) :
    Except Unit VState :=
  (validateModelDocumentation files impl ([], [])).bind (fun s1 =>
  (validateColumnDocumentation files s1).bind (fun s2 =>
  (validateTests files s2).bind (fun s3 =>
  validateTags files s3)))

/-- The return value of the validator `generate_report`:
`len(self.errors) == 0`; the warnings are printed but not consulted. -/
def generateReportSuccess (st : VState) : Bool := st.1.length == 0

/-- The validator `main`: `sys.exit(0 if success else 1)`. -/
def mainExitCode (st : VState) : Nat := if generateReportSuccess st then 0 else 1

/-- Projection used by concrete counterexamples: the final error list of a
completed run. -/
def errorsOf (r : Except Unit VState) : Option (List VFinding) :=
  match r with
  | .ok st => some st.1
  | .error _ => none

/-! ## Derived definitions used by the statements and proofs -/

/-- The breaking finding one iteration of the model loop appends for a key
(at most one per key): a removal of the model, or a removal of columns. -/
def breakingOf (mainD curD : List (String × DModel)) (k : String) : Option Change :=
  match dictGet mainD k with
  | none => none
  | some mm =>
    match dictGet curD k with
    | none => some (.modelRemoved k)
    | some cm => checkColumnRemovals k (columnNames mm) (columnNames cm)

/-- The non-breaking finding one iteration of the model loop appends for a
key (at most one per key): an addition of columns. -/
def nonBreakingOf (mainD curD : List (String × DModel)) (k : String) : Option Change :=
  match dictGet mainD k, dictGet curD k with
  | some mm, some cm => checkColumnAdditions k (columnNames mm) (columnNames cm)
  | _, _ => none

/-- All the differ reads from a model: its name and its set of column
names. -/
def modelSig (m : DModel) : String × Finset String :=
  (m.name, (columnNames m).toFinset)

/-- A column on which the validator cannot raise: it has a string name
(else `col_name.lower()` raises in `validate_tests`) and its description,
when present, is not null (else `.strip()` raises). -/
def vcolOK (c : VColumn) : Bool :=
  c.name.isSome && !(c.description == some none)

/-- A model on which the validator cannot raise. -/
def vmodelOK (m : VModel) : Bool :=
  !(m.description == some none) && m.columns.all vcolOK

/-- A parse result on which the validator cannot raise. -/
def fileOK : RawFile → Bool
  | .doc ms => ms.all vmodelOK
  | _ => true

/-- Whether a run completed without an uncaught exception. -/
def exOk {α : Type} : Except Unit α → Bool
  | .ok _ => true
  | .error _ => false

/-! ## Helper lemmas -/

theorem mkDict_foldl (ms : List DModel) :
    ∀ acc, ms.foldl (fun d m => (m.name, m) :: d) acc =
      (ms.map (fun m => (m.name, m))).reverse ++ acc := by
  induction ms with
  | nil => intro acc; simp
  | cons m rest ih => intro acc; simp [List.foldl_cons, ih]

theorem mkDict_eq (ms : List DModel) :
    mkDict ms = (ms.map (fun m => (m.name, m))).reverse := by
  simpa using mkDict_foldl ms []

theorem dget_mkDict_none (ms : List DModel) (k : String)
    (h : k ∉ ms.map DModel.name) : dictGet (mkDict ms) k = none := by
  have hall : ∀ p ∈ (ms.map (fun m => (m.name, m))).reverse,
      ¬ ((fun p => p.1 == k) p = true) := by
    intro p hp
    simp only [List.mem_reverse, List.mem_map] at hp
    obtain ⟨m, hm, rfl⟩ := hp
    simp only [beq_iff_eq]
    intro hk
    exact h (hk ▸ List.mem_map_of_mem DModel.name hm)
  simp [dictGet, mkDict_eq, List.find?_eq_none.mpr hall]

theorem dget_mkDict_mem (ms : List DModel) (k : String) (m : DModel)
    (h : dictGet (mkDict ms) k = some m) : m ∈ ms ∧ m.name = k := by
  unfold dictGet at h
  cases hf : (mkDict ms).find? (fun p => p.1 == k) with
  | none => rw [hf] at h; cases h
  | some p =>
    rw [hf] at h
    have hp2 : p.2 = m := by simpa using h
    have hmem := List.mem_of_find?_eq_some hf
    have hpred : (p.1 == k) = true := by simpa using List.find?_some hf
    rw [mkDict_eq] at hmem
    simp only [List.mem_reverse, List.mem_map] at hmem
    obtain ⟨m0, hm0, hpeq⟩ := hmem
    have h1 : m0.name = p.1 := by rw [← hpeq]
    have h2 : m0 = p.2 := by rw [← hpeq]
    constructor
    · rw [← hp2, ← h2]; exact hm0
    · rw [← hp2, ← h2, h1]; exact beq_iff_eq.mp hpred

theorem dget_mkDict_isSome (ms : List DModel) (k : String)
    (h : k ∈ ms.map DModel.name) : (dictGet (mkDict ms) k).isSome := by
  obtain ⟨m, hm, hname⟩ := List.mem_map.mp h
  have : ∃ p ∈ mkDict ms, ((fun p => p.1 == k) p = true) := by
    refine ⟨(m.name, m), ?_, by simpa using hname⟩
    rw [mkDict_eq]
    simp only [List.mem_reverse, List.mem_map]
    exact ⟨m, hm, rfl⟩
  have := List.find?_isSome.mpr this
  simpa [dictGet] using this

theorem dget_mem_keys {κ α : Type} [BEq κ] [LawfulBEq κ]
    (d : List (κ × α)) (k : κ) (v : α) (h : dictGet d k = some v) :
    k ∈ d.map (fun p => p.1) := by
  unfold dictGet at h
  cases hf : d.find? (fun p => p.1 == k) with
  | none => rw [hf] at h; cases h
  | some p =>
    have hmem := List.mem_of_find?_eq_some hf
    have hpred : (p.1 == k) = true := by simpa using List.find?_some hf
    have : p.1 = k := beq_iff_eq.mp hpred
    rw [← this]
    exact List.mem_map_of_mem (fun p => p.1) hmem

theorem nodup_name_unique (ms : List DModel)
    (h : (ms.map DModel.name).Nodup) (m1 m2 : DModel)
    (h1 : m1 ∈ ms) (h2 : m2 ∈ ms) (hn : m1.name = m2.name) : m1 = m2 := by
  induction ms with
  | nil => cases h1
  | cons m rest ih =>
    simp only [List.map_cons, List.nodup_cons] at h
    rcases List.mem_cons.mp h1 with rfl | h1m
    · rcases List.mem_cons.mp h2 with rfl | h2m
      · rfl
      · exact absurd (hn ▸ List.mem_map_of_mem DModel.name h2m) h.1
    · rcases List.mem_cons.mp h2 with rfl | h2m
      · exact absurd (hn ▸ List.mem_map_of_mem DModel.name h1m) h.1
      · exact ih h.2 h1m h2m

theorem foldl_diffStep (mD cD : List (String × DModel)) :
    ∀ (order : List String) (st : List Change × List Change),
      order.foldl (diffStep mD cD) st =
        (st.1 ++ order.filterMap (breakingOf mD cD),
         st.2 ++ order.filterMap (nonBreakingOf mD cD)) := by
  intro order
  induction order with
  | nil => intro st; simp
  | cons k rest ih =>
    intro st
    rw [List.foldl_cons, ih]
    cases hm : dictGet mD k with
    | none => simp [diffStep, breakingOf, nonBreakingOf, hm, List.filterMap_cons]
    | some mm =>
      cases hc : dictGet cD k with
      | none =>
        simp [diffStep, breakingOf, nonBreakingOf, hm, hc, List.filterMap_cons]
      | some cm =>
        cases hr : checkColumnRemovals k (columnNames mm) (columnNames cm) <;>
          cases ha : checkColumnAdditions k (columnNames mm) (columnNames cm) <;>
            simp [diffStep, breakingOf, nonBreakingOf, hm, hc, hr, ha,
              List.filterMap_cons]

theorem checkColumnRemovals_model (k : String) (old new : List String) (c : Change)
    (h : checkColumnRemovals k old new = some c) : changeModel c = k := by
  unfold checkColumnRemovals at h
  dsimp only at h
  split at h
  · rw [← Option.some.inj h]; rfl
  · exact Option.noConfusion h

theorem checkColumnAdditions_model (k : String) (old new : List String) (c : Change)
    (h : checkColumnAdditions k old new = some c) : changeModel c = k := by
  unfold checkColumnAdditions at h
  dsimp only at h
  split at h
  · rw [← Option.some.inj h]; rfl
  · exact Option.noConfusion h

theorem breakingOf_model (mD cD : List (String × DModel)) (k : String) (c : Change)
    (h : breakingOf mD cD k = some c) : changeModel c = k := by
  unfold breakingOf at h
  split at h
  · exact Option.noConfusion h
  · split at h
    · rw [← Option.some.inj h]; rfl
    · exact checkColumnRemovals_model _ _ _ _ h

theorem nonBreakingOf_model (mD cD : List (String × DModel)) (k : String) (c : Change)
    (h : nonBreakingOf mD cD k = some c) : changeModel c = k := by
  unfold nonBreakingOf at h
  split at h
  · exact checkColumnAdditions_model _ _ _ _ h
  · exact Option.noConfusion h

theorem filterMap_filter_of_none (f : String → Option Change) (n : String)
    (hf : ∀ k c, f k = some c → changeModel c = k) (hn : f n = none) :
    ∀ order : List String,
      (order.filterMap f).filter (fun c => changeModel c == n) = [] := by
  intro order
  induction order with
  | nil => rfl
  | cons k rest ih =>
    cases hk : f k with
    | none => simp [List.filterMap_cons, hk, ih]
    | some c =>
      have hck := hf k c hk
      have hkn : k ≠ n := by
        intro hkn
        rw [hkn, hn] at hk
        cases hk
      simp [List.filterMap_cons, hk, List.filter_cons, hck, hkn, ih]

theorem filterMap_filter_of_not_mem (f : String → Option Change) (n : String)
    (hf : ∀ k c, f k = some c → changeModel c = k) :
    ∀ order : List String, n ∉ order →
      (order.filterMap f).filter (fun c => changeModel c == n) = [] := by
  intro order
  induction order with
  | nil => intro _; rfl
  | cons k rest ih =>
    intro hmem
    have hkn : k ≠ n := fun h => hmem (h ▸ List.mem_cons_self k rest)
    have hrest : n ∉ rest := fun h => hmem (List.mem_cons_of_mem k h)
    cases hk : f k with
    | none => simp [List.filterMap_cons, hk, ih hrest]
    | some c =>
      have hck := hf k c hk
      simp [List.filterMap_cons, hk, List.filter_cons, hck, hkn, ih hrest]

theorem filterMap_filter_of_mem (f : String → Option Change) (n : String)
    (hf : ∀ k c, f k = some c → changeModel c = k) :
    ∀ order : List String, order.Nodup → n ∈ order →
      (order.filterMap f).filter (fun c => changeModel c == n) = (f n).toList := by
  intro order
  induction order with
  | nil => intro _ h; cases h
  | cons k rest ih =>
    intro hnd hmem
    have hndr := (List.nodup_cons.mp hnd).2
    have hknr := (List.nodup_cons.mp hnd).1
    rcases List.mem_cons.mp hmem with rfl | hmemr
    · cases hk : f n with
      | none =>
        simp [List.filterMap_cons, hk,
          filterMap_filter_of_not_mem f n hf rest hknr]
      | some c =>
        have hck := hf n c hk
        simp [List.filterMap_cons, hk, List.filter_cons, hck,
          filterMap_filter_of_not_mem f n hf rest hknr]
    · have hkn : k ≠ n := fun h => hknr (h ▸ hmemr)
      cases hk : f k with
      | none => simp [List.filterMap_cons, hk, ih hndr hmemr]
      | some c =>
        have hck := hf k c hk
        simp [List.filterMap_cons, hk, List.filter_cons, hck, hkn, ih hndr hmemr]

theorem sdiff_triple_left (a b c d : String) (hab : a ≠ b) (hac : a ≠ c)
    (had : a ≠ d) : ({a, b, c} : Finset String) \ {b, c, d} = {a} := by
  ext x
  simp only [Finset.mem_sdiff, Finset.mem_insert, Finset.mem_singleton]
  constructor
  · rintro ⟨h1 | h1 | h1, h2⟩
    · exact h1
    · exact (h2 (Or.inl h1)).elim
    · exact (h2 (Or.inr (Or.inl h1))).elim
  · intro h
    subst h
    exact ⟨Or.inl rfl, by simp [hab, hac, had]⟩

theorem sdiff_triple_right (a b c d : String) (hda : d ≠ a) (hdb : d ≠ b)
    (hdc : d ≠ c) : ({b, c, d} : Finset String) \ {a, b, c} = {d} := by
  ext x
  simp only [Finset.mem_sdiff, Finset.mem_insert, Finset.mem_singleton]
  constructor
  · rintro ⟨h1 | h1 | h1, h2⟩
    · exact (h2 (Or.inr (Or.inl h1))).elim
    · exact (h2 (Or.inr (Or.inr h1))).elim
    · exact h1
  · intro h
    subst h
    exact ⟨Or.inr (Or.inr rfl), by simp [hda, hdb, hdc]⟩

theorem foldlE_error {α β : Type} (g : α → β → Except Unit β) (l : List α)
    (u : Unit) :
    l.foldl (fun (acc : Except Unit β) a => acc.bind (g a)) (.error u) = .error u := by
  induction l with
  | nil => rfl
  | cons a rest ih => simpa [Except.bind] using ih

theorem foldlE_shift {α β : Type} (g : α → β → Except Unit β) (l : List α)
    (e : Except Unit β) :
    l.foldl (fun (acc : Except Unit β) a => acc.bind (g a)) e =
      e.bind (fun s => l.foldl (fun (acc : Except Unit β) a => acc.bind (g a)) (.ok s)) := by
  cases e with
  | ok s => rfl
  | error u => rw [foldlE_error]; rfl

theorem foldlE_append {α β : Type} (g : α → β → Except Unit β)
    (l1 l2 : List α) (e : Except Unit β) :
    (l1 ++ l2).foldl (fun (acc : Except Unit β) a => acc.bind (g a)) e =
      (l1.foldl (fun (acc : Except Unit β) a => acc.bind (g a)) e).bind
        (fun s => l2.foldl (fun (acc : Except Unit β) a => acc.bind (g a)) (.ok s)) := by
  rw [List.foldl_append, foldlE_shift]

theorem foldlE_ok {α β : Type} (g : α → β → Except Unit β) (l : List α)
    (e : Except Unit β) (h0 : exOk e = true)
    (h : ∀ a ∈ l, ∀ b, exOk (g a b) = true) :
    exOk (l.foldl (fun (acc : Except Unit β) a => acc.bind (g a)) e) = true := by
  induction l generalizing e with
  | nil => exact h0
  | cons a rest ih =>
    rw [List.foldl_cons]
    apply ih
    · cases e with
      | error u => exact absurd h0 (by simp [exOk])
      | ok b => exact h a (List.mem_cons_self a rest) b
    · intro a1 h1 b
      exact h a1 (List.mem_cons_of_mem a h1) b

theorem exOk_map {α γ : Type} (e : Except Unit α) (f : α → γ) :
    exOk (e.map f) = exOk e := by
  cases e <;> rfl

theorem vmdFileStep_ok (f : RawFile) (hf : fileOK f = true)
    (acc : List (Option String × List Char) × List VFinding) :
    exOk (vmdFileStep f acc) = true := by
  cases f with
  | malformed => rfl
  | empty => rfl
  | doc ms =>
    unfold vmdFileStep loadSchemaFile
    dsimp only
    apply foldlE_ok
    · rfl
    · intro m hm p
      rw [exOk_map]
      simp only [fileOK, List.all_eq_true] at hf
      have hmOK := hf m hm
      simp only [vmodelOK, Bool.and_eq_true] at hmOK
      cases hd : m.description with
      | none => rfl
      | some o =>
        cases o with
        | none => rw [hd] at hmOK; simp at hmOK
        | some s => rfl

theorem validateModelDocumentation_ok (files : List RawFile) (impl : List String)
    (st : VState) (h : files.all fileOK = true) :
    exOk (validateModelDocumentation files impl st) = true := by
  unfold validateModelDocumentation buildIndex
  rw [exOk_map]
  apply foldlE_ok
  · rfl
  · intro f hfm b
    simp only [List.all_eq_true] at h
    exact vmdFileStep_ok f (h f hfm) b

theorem vcdColumn_ok (mn : Option String) (c : VColumn) (hc : vcolOK c = true)
    (st : VState) : exOk (vcdColumn mn c st) = true := by
  unfold vcdColumn
  rw [exOk_map]
  cases hd : c.description with
  | none => rfl
  | some o =>
    cases o with
    | none => simp [vcolOK, hd] at hc
    | some s => rfl

theorem vcdModel_ok (m : VModel) (hm : vmodelOK m = true) (st : VState) :
    exOk (vcdModel m st) = true := by
  unfold vcdModel
  split
  · rfl
  · apply foldlE_ok
    · rfl
    · intro c hcmem s
      apply vcdColumn_ok
      simp only [vmodelOK, Bool.and_eq_true, List.all_eq_true] at hm
      exact hm.2 c hcmem

theorem vcdFileStep_ok (f : RawFile) (hf : fileOK f = true) (st : VState) :
    exOk (vcdFileStep f st) = true := by
  cases f with
  | malformed => rfl
  | empty => rfl
  | doc ms =>
    unfold vcdFileStep loadSchemaFile
    dsimp only
    apply foldlE_ok
    · rfl
    · intro m hm s
      simp only [fileOK, List.all_eq_true] at hf
      exact vcdModel_ok m (hf m hm) s

theorem validateColumnDocumentation_ok (files : List RawFile) (st : VState)
    (h : files.all fileOK = true) :
    exOk (validateColumnDocumentation files st) = true := by
  unfold validateColumnDocumentation
  apply foldlE_ok
  · rfl
  · intro f hfm b
    simp only [List.all_eq_true] at h
    exact vcdFileStep_ok f (h f hfm) b

theorem vtColumn_ok (mn : Option String) (c : VColumn) (hc : vcolOK c = true)
    (st : VState) : exOk (vtColumn mn c st) = true := by
  unfold vtColumn
  cases hn : c.name with
  | none => simp [vcolOK, hn] at hc
  | some cn =>
    dsimp only
    split <;> rfl

theorem vtFileStep_ok (f : RawFile) (hf : fileOK f = true) (st : VState) :
    exOk (vtFileStep f st) = true := by
  cases f with
  | malformed => rfl
  | empty => rfl
  | doc ms =>
    unfold vtFileStep loadSchemaFile
    dsimp only
    apply foldlE_ok
    · rfl
    · intro m hm s
      apply foldlE_ok
      · rfl
      · intro c hcmem b
        apply vtColumn_ok
        simp only [fileOK, List.all_eq_true] at hf
        have hmOK := hf m hm
        simp only [vmodelOK, Bool.and_eq_true, List.all_eq_true] at hmOK
        exact hmOK.2 c hcmem

theorem validateTests_ok (files : List RawFile) (st : VState)
    (h : files.all fileOK = true) : exOk (validateTests files st) = true := by
  unfold validateTests
  apply foldlE_ok
  · rfl
  · intro f hfm b
    simp only [List.all_eq_true] at h
    exact vtFileStep_ok f (h f hfm) b

theorem validateTags_ok (files : List RawFile) (st : VState) :
    exOk (validateTags files st) = true := by
  unfold validateTags
  apply foldlE_ok
  · rfl
  · intro f hfm b
    cases f <;> rfl

/-! ## Claim theorems: schema change checker -/

/-- Claim C9: diffing any document against itself yields zero findings,
whatever enumeration order the model-name set comes out in. -/
theorem diff_self_no_findings (X : DDoc) (order : List String) :
    diffFile X X order = ([], []) := by
  cases X with
  | none => rfl
  | some ms =>
    unfold diffFile
    dsimp only [Option.getD]
    rw [foldl_diffStep]
    have hB : ∀ k ∈ order, breakingOf (mkDict ms) (mkDict ms) k = none := by
      intro k _
      cases h1 : dictGet (mkDict ms) k with
      | none => simp [breakingOf, h1]
      | some mm =>
        simp [breakingOf, h1, checkColumnRemovals, Finset.sdiff_self,
          Finset.not_nonempty_empty]
    have hNB : ∀ k ∈ order, nonBreakingOf (mkDict ms) (mkDict ms) k = none := by
      intro k _
      cases h1 : dictGet (mkDict ms) k with
      | none => simp [nonBreakingOf, h1]
      | some mm =>
        simp [nonBreakingOf, h1, checkColumnAdditions, Finset.sdiff_self,
          Finset.not_nonempty_empty]
    rw [List.filterMap_eq_nil_iff.mpr hB, List.filterMap_eq_nil_iff.mpr hNB]
    rfl

/-- Claim C10: the diff reads nothing but the model names and, per shared
model, the column-name sets.  Two documents with the same model names
(without duplicates) and, model by model, the same column-name sets,
produce zero recorded findings whatever their descriptions, tags, tests or
column order, and whatever the enumeration order. -/
theorem diff_ignores_other_attributes
    (mainMs curMs : List DModel) (order : List String)
    (_hm : (mainMs.map DModel.name).Nodup) (hc : (curMs.map DModel.name).Nodup)
    (hsig : (mainMs.map modelSig).toFinset = (curMs.map modelSig).toFinset) :
    diffFile (some mainMs) (some curMs) order = ([], []) := by
  have key : ∀ k : String,
      breakingOf (mkDict mainMs) (mkDict curMs) k = none ∧
      nonBreakingOf (mkDict mainMs) (mkDict curMs) k = none := by
    intro k
    cases hgm : dictGet (mkDict mainMs) k with
    | none => exact ⟨by simp [breakingOf, hgm], by simp [nonBreakingOf, hgm]⟩
    | some mm =>
      obtain ⟨hmem, hname⟩ := dget_mkDict_mem mainMs k mm hgm
      have hsigmem : modelSig mm ∈ curMs.map modelSig := by
        have h1 : modelSig mm ∈ (mainMs.map modelSig).toFinset :=
          List.mem_toFinset.mpr (List.mem_map_of_mem modelSig hmem)
        rw [hsig] at h1
        exact List.mem_toFinset.mp h1
      obtain ⟨cm, hcmem, hsigeq⟩ := List.mem_map.mp hsigmem
      have hcname : cm.name = k := by
        have h2 := congrArg Prod.fst hsigeq
        simpa [modelSig, hname] using h2
      have hsome : (dictGet (mkDict curMs) k).isSome := by
        apply dget_mkDict_isSome
        rw [← hcname]
        exact List.mem_map_of_mem DModel.name hcmem
      obtain ⟨cm1, hgc⟩ := Option.isSome_iff_exists.mp hsome
      obtain ⟨hc1mem, hc1name⟩ := dget_mkDict_mem curMs k cm1 hgc
      have hceq : cm1 = cm :=
        nodup_name_unique curMs hc cm1 cm hc1mem hcmem (by rw [hc1name, hcname])
      subst hceq
      have hcols : (columnNames mm).toFinset = (columnNames cm1).toFinset := by
        have h3 := congrArg Prod.snd hsigeq
        simpa [modelSig] using h3.symm
      constructor
      · simp [breakingOf, hgm, hgc, checkColumnRemovals, hcols,
          Finset.sdiff_self, Finset.not_nonempty_empty]
      · simp [nonBreakingOf, hgm, hgc, checkColumnAdditions, hcols,
          Finset.sdiff_self, Finset.not_nonempty_empty]
  unfold diffFile
  dsimp only [Option.getD]
  rw [foldl_diffStep]
  rw [List.filterMap_eq_nil_iff.mpr (fun k _ => (key k).1),
    List.filterMap_eq_nil_iff.mpr (fun k _ => (key k).2)]
  rfl

/-- Witness for C10: the two documents share the model name and the
column-name set but differ in description, tags, tests and column order;
the diff records nothing. -/
theorem diff_ignores_other_attributes_witness :
    diffFile
      (some [⟨"users", "old description", ["core"],
        [⟨"id", "x", []⟩, ⟨"name", "y", []⟩]⟩])
      (some [⟨"users", "new", [],
        [⟨"name", "z", [.str "not_null"]⟩, ⟨"id", "w", [.other]⟩]⟩])
      ["users"] = ([], []) :=
  diff_ignores_other_attributes _ _ _ (by decide) (by decide) (by decide)

/-- Claim C1, counterexample: old document defines model a, new document
adds model b, yet the returned change set is completely empty — the
checker only prints the new model and appends no non-breaking
`ModelAdded` finding.  The enumeration used is a valid order of the key
set. -/
theorem model_added_unrecorded_cex :
    validOrder (some [⟨"a", "d", [], []⟩])
      (some [⟨"a", "d", [], []⟩, ⟨"b", "d", [], []⟩]) ["a", "b"] ∧
    diffFile (some [⟨"a", "d", [], []⟩])
      (some [⟨"a", "d", [], []⟩, ⟨"b", "d", [], []⟩]) ["a", "b"] = ([], []) := by
  constructor
  · decide
  · decide

/-- Claim C1, amended: a model present in the new document and absent from
the old one produces no recorded finding at all — neither breaking nor
non-breaking — for any enumeration order; the addition is only printed to
the console. -/
theorem model_added_no_recorded_finding
    (mainMs curMs : List DModel) (order : List String) (n : String)
    (_hnew : n ∈ curMs.map DModel.name) (hold : n ∉ mainMs.map DModel.name) :
    ((diffFile (some mainMs) (some curMs) order).1.filter
        (fun c => changeModel c == n) = []) ∧
    ((diffFile (some mainMs) (some curMs) order).2.filter
        (fun c => changeModel c == n) = []) := by
  have hgm : dictGet (mkDict mainMs) n = none := dget_mkDict_none mainMs n hold
  have hb : breakingOf (mkDict mainMs) (mkDict curMs) n = none := by
    simp [breakingOf, hgm]
  have hnb : nonBreakingOf (mkDict mainMs) (mkDict curMs) n = none := by
    simp [nonBreakingOf, hgm]
  unfold diffFile
  dsimp only [Option.getD]
  rw [foldl_diffStep]
  simp only [List.nil_append]
  exact ⟨filterMap_filter_of_none _ n (breakingOf_model _ _) hb order,
    filterMap_filter_of_none _ n (nonBreakingOf_model _ _) hnb order⟩

/-- Witness for the amended C1 at a concrete input. -/
theorem model_added_no_recorded_finding_witness :
    ((diffFile (some [⟨"a", "d", [], []⟩])
        (some [⟨"a", "d", [], []⟩, ⟨"orders", "d", [], []⟩]) ["orders", "a"]).1.filter
        (fun c => changeModel c == "orders") = []) ∧
    ((diffFile (some [⟨"a", "d", [], []⟩])
        (some [⟨"a", "d", [], []⟩, ⟨"orders", "d", [], []⟩]) ["orders", "a"]).2.filter
        (fun c => changeModel c == "orders") = []) :=
  model_added_no_recorded_finding _ _ _ _ (by decide) (by decide)

/-- Claim C7: a model present in both documents whose column-name sets are
old = (a, b, c) and new = (b, c, d), with the four names distinct, yields
exactly one breaking columns-removed finding carrying the set with a
alone, and exactly one non-breaking columns-added finding carrying the
set with d alone, among the findings reported for that model; neither set
contains b or c. -/
theorem shared_model_column_diff
    (mainMs curMs : List DModel) (order : List String)
    (n a b c d : String) (mm cm : DModel)
    (horder : validOrder (some mainMs) (some curMs) order)
    (hgm : dictGet (mkDict mainMs) n = some mm)
    (hgc : dictGet (mkDict curMs) n = some cm)
    (hold : (columnNames mm).toFinset = {a, b, c})
    (hnew : (columnNames cm).toFinset = {b, c, d})
    (hab : a ≠ b) (hac : a ≠ c) (had : a ≠ d) (hdb : d ≠ b) (hdc : d ≠ c) :
    ((diffFile (some mainMs) (some curMs) order).1.filter
        (fun ch => changeModel ch == n) = [Change.columnsRemoved n {a}]) ∧
    ((diffFile (some mainMs) (some curMs) order).2.filter
        (fun ch => changeModel ch == n) = [Change.columnsAdded n {d}]) := by
  have hmemo : n ∈ order := by
    have hk := dget_mem_keys (mkDict mainMs) n mm hgm
    have h1 : n ∈ order.toFinset := by
      rw [horder.2]
      exact Finset.mem_union_right _ (List.mem_toFinset.mpr hk)
    exact List.mem_toFinset.mp h1
  have hrem : ({a, b, c} : Finset String) \ {b, c, d} = {a} :=
    sdiff_triple_left a b c d hab hac had
  have hadd : ({b, c, d} : Finset String) \ {a, b, c} = {d} :=
    sdiff_triple_right a b c d (fun h => had h.symm) hdb hdc
  have hBn : breakingOf (mkDict mainMs) (mkDict curMs) n
      = some (.columnsRemoved n {a}) := by
    simp [breakingOf, hgm, hgc, checkColumnRemovals, hold, hnew, hrem,
      Finset.singleton_nonempty]
  have hNBn : nonBreakingOf (mkDict mainMs) (mkDict curMs) n
      = some (.columnsAdded n {d}) := by
    simp [nonBreakingOf, hgm, hgc, checkColumnAdditions, hold, hnew, hadd,
      Finset.singleton_nonempty]
  unfold diffFile
  dsimp only [Option.getD]
  rw [foldl_diffStep]
  simp only [List.nil_append]
  constructor
  · rw [filterMap_filter_of_mem _ n (breakingOf_model _ _) order horder.1 hmemo,
      hBn]
    rfl
  · rw [filterMap_filter_of_mem _ n (nonBreakingOf_model _ _) order horder.1 hmemo,
      hNBn]
    rfl

/-- Witness for C7 at the concrete column sets of the specification. -/
theorem shared_model_column_diff_witness :
    ((diffFile (some [⟨"m", "", [], [⟨"a", "", []⟩, ⟨"b", "", []⟩, ⟨"c", "", []⟩]⟩])
        (some [⟨"m", "", [], [⟨"b", "", []⟩, ⟨"c", "", []⟩, ⟨"d", "", []⟩]⟩])
        ["m"]).1.filter (fun ch => changeModel ch == "m")
      = [Change.columnsRemoved "m" {"a"}]) ∧
    ((diffFile (some [⟨"m", "", [], [⟨"a", "", []⟩, ⟨"b", "", []⟩, ⟨"c", "", []⟩]⟩])
        (some [⟨"m", "", [], [⟨"b", "", []⟩, ⟨"c", "", []⟩, ⟨"d", "", []⟩]⟩])
        ["m"]).2.filter (fun ch => changeModel ch == "m")
      = [Change.columnsAdded "m" {"d"}]) :=
  shared_model_column_diff
    [⟨"m", "", [], [⟨"a", "", []⟩, ⟨"b", "", []⟩, ⟨"c", "", []⟩]⟩]
    [⟨"m", "", [], [⟨"b", "", []⟩, ⟨"c", "", []⟩, ⟨"d", "", []⟩]⟩]
    ["m"] "m" "a" "b" "c" "d"
    ⟨"m", "", [], [⟨"a", "", []⟩, ⟨"b", "", []⟩, ⟨"c", "", []⟩]⟩
    ⟨"m", "", [], [⟨"b", "", []⟩, ⟨"c", "", []⟩, ⟨"d", "", []⟩]⟩
    (by decide) (by decide) (by decide) (by decide) (by decide)
    (by decide) (by decide) (by decide) (by decide) (by decide)

/-- Claim C5, counterexample: on the same pair of documents, two valid
enumerations of the model-key set (both possible runs, since Python set
iteration order is hash-seeded and unspecified) yield differently ordered
change sets, and the actual order is the enumeration order, not a
lexicographic one. -/
theorem diff_order_dependent_cex :
    validOrder
      (some [⟨"a", "", [], [⟨"x", "", []⟩]⟩, ⟨"b", "", [], [⟨"y", "", []⟩]⟩])
      (some [⟨"a", "", [], []⟩, ⟨"b", "", [], []⟩]) ["a", "b"] ∧
    validOrder
      (some [⟨"a", "", [], [⟨"x", "", []⟩]⟩, ⟨"b", "", [], [⟨"y", "", []⟩]⟩])
      (some [⟨"a", "", [], []⟩, ⟨"b", "", [], []⟩]) ["b", "a"] ∧
    diffFile
      (some [⟨"a", "", [], [⟨"x", "", []⟩]⟩, ⟨"b", "", [], [⟨"y", "", []⟩]⟩])
      (some [⟨"a", "", [], []⟩, ⟨"b", "", [], []⟩]) ["a", "b"] ≠
    diffFile
      (some [⟨"a", "", [], [⟨"x", "", []⟩]⟩, ⟨"b", "", [], [⟨"y", "", []⟩]⟩])
      (some [⟨"a", "", [], []⟩, ⟨"b", "", [], []⟩]) ["b", "a"] := by
  refine ⟨by decide, by decide, by decide⟩

/-- Claim C5, amended: the content of the change set does not depend on
the run — for any two valid enumerations the breaking lists agree up to
permutation, and so do the non-breaking lists (removals always land in
the breaking list and additions in the non-breaking list, which the
report prints afterwards); only the order within each list follows the
unspecified set-enumeration order. -/
theorem diff_content_run_independent
    (mainDoc curDoc : DDoc) (o1 o2 : List String)
    (h1 : validOrder mainDoc curDoc o1) (h2 : validOrder mainDoc curDoc o2) :
    ((diffFile mainDoc curDoc o1).1.Perm (diffFile mainDoc curDoc o2).1) ∧
    ((diffFile mainDoc curDoc o1).2.Perm (diffFile mainDoc curDoc o2).2) := by
  have hperm : o1.Perm o2 :=
    List.perm_of_nodup_nodup_toFinset_eq h1.1 h2.1 (h1.2.trans h2.2.symm)
  cases mainDoc with
  | none => exact ⟨List.Perm.refl _, List.Perm.refl _⟩
  | some ms =>
    unfold diffFile
    dsimp only [Option.getD]
    rw [foldl_diffStep, foldl_diffStep]
    simp only [List.nil_append]
    exact ⟨hperm.filterMap _, hperm.filterMap _⟩

/-- Witness for the amended C5 at a concrete input. -/
theorem diff_content_run_independent_witness :
    ((diffFile
        (some [⟨"a", "", [], [⟨"x", "", []⟩]⟩, ⟨"b", "", [], [⟨"y", "", []⟩]⟩])
        (some [⟨"a", "", [], []⟩, ⟨"b", "", [], []⟩]) ["a", "b"]).1.Perm
      ((diffFile
        (some [⟨"a", "", [], [⟨"x", "", []⟩]⟩, ⟨"b", "", [], [⟨"y", "", []⟩]⟩])
        (some [⟨"a", "", [], []⟩, ⟨"b", "", [], []⟩]) ["b", "a"]).1)) ∧
    ((diffFile
        (some [⟨"a", "", [], [⟨"x", "", []⟩]⟩, ⟨"b", "", [], [⟨"y", "", []⟩]⟩])
        (some [⟨"a", "", [], []⟩, ⟨"b", "", [], []⟩]) ["a", "b"]).2.Perm
      ((diffFile
        (some [⟨"a", "", [], [⟨"x", "", []⟩]⟩, ⟨"b", "", [], [⟨"y", "", []⟩]⟩])
        (some [⟨"a", "", [], []⟩, ⟨"b", "", [], []⟩]) ["b", "a"]).2)) :=
  diff_content_run_independent _ _ _ _ (by decide) (by decide)

/-! ## Claim theorems: metadata validator -/

/-- Claim C6: once the full validation pass completes, the entry point
exits nonzero exactly when the accumulated error list is non-empty, and
the warning list never influences the exit code. -/
theorem exit_nonzero_iff_errors
    (files : List RawFile) (impl : List String) (st : VState)
    (_h : runAllValidations files impl = .ok st) :
    (mainExitCode st ≠ 0 ↔ st.1 ≠ []) ∧
    (∀ w : List VFinding, mainExitCode (st.1, w) = mainExitCode st) := by
  constructor
  · unfold mainExitCode generateReportSuccess
    cases st.1 <;> simp
  · intro w
    rfl

/-- Witness for C6: the empty corpus completes with no findings and exit
code zero. -/
theorem exit_nonzero_iff_errors_witness :
    ((mainExitCode ([], []) ≠ 0 ↔ ([] : List VFinding) ≠ []) ∧
     (∀ w : List VFinding,
        mainExitCode (([] : List VFinding), w)
          = mainExitCode (([] : List VFinding), ([] : List VFinding)))) :=
  exit_nonzero_iff_errors [] [] ([], []) (by decide)

/-- Claim C4, counterexample: a single unparsable schema file makes the
validator record a reading error in `errors` — four times, once per
validation pass that reloads the file — so the failure is not swallowed
as a mere warning: the exit code becomes 1. -/
theorem unparsable_source_errors_cex :
    runAllValidations [RawFile.malformed] [] =
      .ok ([.readError, .readError, .readError, .readError], []) ∧
    mainExitCode ([.readError, .readError, .readError, .readError], []) = 1 := by
  refine ⟨by decide, by decide⟩

/-- Claim C4, amended: both loaders return an empty document (zero
models) on empty or malformed input; the checker only logs the failure
and records nothing, but the validator appends a reading error to the
report error list on a malformed source (while a merely empty source
stays silent), so in the validator an unparsable file does affect exit
status. -/
theorem parse_failure_handling :
    (loadSchemaFileC .malformed = none ∧ loadSchemaFileC .empty = none) ∧
    (∀ errs : List VFinding,
      loadSchemaFile .malformed errs = ([], errs ++ [.readError])) ∧
    (∀ errs : List VFinding, loadSchemaFile .empty errs = ([], errs)) :=
  ⟨⟨rfl, rfl⟩, fun _ => rfl, fun _ => rfl⟩

/-- Claim C2, counterexample: the first document gives model m an empty
description and a later document gives the same model a long description;
the run completes with an empty error list, although the claim demands an
empty-description error from the first document. -/
theorem masked_empty_description_cex :
    errorsOf (runAllValidations
      [RawFile.doc [⟨some "m", some (some ""), [], []⟩],
       RawFile.doc [⟨some "m", some (some "a long enough description"), [], []⟩]]
      ["m"]) = some [] := by decide

/-- Claim C2, amended: the column-documentation, test and tag passes are
evaluated independently per document — over a concatenated corpus each is
the sequential composition of its runs on the parts — but the
model-documentation pass works off a name-keyed index in which a later
document overwrites an earlier one, so for model descriptions only the
last document defining a name contributes. -/
theorem per_document_independence (fs1 fs2 : List RawFile) (st : VState) :
    (validateColumnDocumentation (fs1 ++ fs2) st =
      (validateColumnDocumentation fs1 st).bind
        (fun s => validateColumnDocumentation fs2 s)) ∧
    (validateTests (fs1 ++ fs2) st =
      (validateTests fs1 st).bind (fun s => validateTests fs2 s)) ∧
    (validateTags (fs1 ++ fs2) st =
      (validateTags fs1 st).bind (fun s => validateTags fs2 s)) ∧
    (∀ (idx : List (Option String × List Char)) (k : Option String)
        (v : List Char), dictGet ((k, v) :: idx) k = some v) := by
  refine ⟨?_, ?_, ?_, ?_⟩
  · unfold validateColumnDocumentation
    rw [foldlE_append]
  · unfold validateTests
    rw [foldlE_append]
  · unfold validateTags
    rw [foldlE_append]
  · intro idx k v
    simp [dictGet, List.find?_cons]

/-- Claim C3, counterexample: a parsed document whose only column lacks a
name makes the validator raise (in `validate_tests`, on
`col_name.lower()`), instead of completing with findings. -/
theorem validate_raises_cex :
    runAllValidations
      [RawFile.doc [⟨some "m", some (some "a fine description"), ["t"],
        [⟨none, some (some "desc ok"), []⟩]⟩]] [] = .error () := by decide

/-- Claim C3, amended: the validator completes without raising on every
corpus in which each present description is a string (not null) and each
column carries a string name; on such inputs the only failure signal is a
non-empty error list. -/
theorem validate_total
    (files : List RawFile) (impl : List String)
    (h : files.all fileOK = true) :
    exOk (runAllValidations files impl) = true := by
  unfold runAllValidations
  have h1 := validateModelDocumentation_ok files impl ([], []) h
  cases hr1 : validateModelDocumentation files impl ([], []) with
  | error u => rw [hr1] at h1; exact absurd h1 (by simp [exOk])
  | ok s1 =>
    have h2 := validateColumnDocumentation_ok files s1 h
    cases hr2 : validateColumnDocumentation files s1 with
    | error u => rw [hr2] at h2; exact absurd h2 (by simp [exOk])
    | ok s2 =>
      have h3 := validateTests_ok files s2 h
      cases hr3 : validateTests files s2 with
      | error u => rw [hr3] at h3; exact absurd h3 (by simp [exOk])
      | ok s3 =>
        have h4 := validateTags_ok files s3
        simpa [hr1, hr2, hr3, Except.bind] using h4

/-- Witness for the amended C3 on a concrete well-formed corpus. -/
theorem validate_total_witness :
    exOk (runAllValidations
      [RawFile.doc [⟨some "users", some (some "all the users"), ["core"],
        [⟨some "user_id", some (some "the key"),
          [.str "unique", .str "not_null"]⟩]⟩],
       RawFile.empty] ["users", "orders"]) = true :=
  validate_total _ _ (by decide)

/-- Claim C8: a column whose name contains the substring id in any case
must carry a unique-kind and a not-null-kind test (bare string tests read
directly, mapping tests by their keys); `validate_tests` emits one
warning per missing kind — the unique warning first — and no errors. -/
theorem id_column_test_warnings
    (m : VModel) (c : VColumn) (cn : String)
    (hcols : m.columns = [c]) (hname : c.name = some cn)
    (hid : hasSub "id".data (lowerStr cn) = true) :
    (∀ st : VState, vtColumn m.name c st =
      .ok (st.1,
        st.2 ++
        (if "unique" ∈ testTypes c.tests then []
          else [.missingUniqueTest m.name cn]) ++
        (if "not_null" ∈ testTypes c.tests then []
          else [.missingNotNullTest m.name cn]))) ∧
    validateTests [RawFile.doc [m]] ([], []) =
      .ok ([],
        (if "unique" ∈ testTypes c.tests then []
          else [.missingUniqueTest m.name cn]) ++
        (if "not_null" ∈ testTypes c.tests then []
          else [.missingNotNullTest m.name cn])) := by
  constructor
  · intro st
    simp only [vtColumn, hname, hid, if_true]
    split <;> split <;> simp
  · simp only [validateTests, List.foldl_cons, List.foldl_nil, Except.bind,
      vtFileStep, loadSchemaFile, hcols, vtColumn, hname, hid, if_true]
    split <;> split <;> simp

/-- Witness for C8: the column user_id carrying only a not-null test gets
exactly one warning — for the missing unique test — and none about the
not-null test it already has. -/
theorem id_column_test_warnings_witness :
    validateTests
      [RawFile.doc [⟨some "users", some (some "d"), [],
        [⟨some "user_id", some (some "x"), [.str "not_null"]⟩]⟩]] ([], [])
      = .ok ([], [.missingUniqueTest (some "users") "user_id"]) :=
  ((id_column_test_warnings
    ⟨some "users", some (some "d"), [],
      [⟨some "user_id", some (some "x"), [.str "not_null"]⟩]⟩
    ⟨some "user_id", some (some "x"), [.str "not_null"]⟩
    "user_id" rfl rfl (by decide)).2).trans (by decide)
